import Mathlib

/-!
Verification model of the miner-info transaction lifecycle manager
(`src/rpc/miner_info.cpp` of bitcoin-sv).

Scripts are modelled at the instruction level (`bsv::instruction` is an
opcode plus its push operand).  Transaction ids (`GetId`, a collision-free
hash in the source) are modelled by an injective encoding of the
transaction into a byte list; we prove the encoding lets the first
output's script be recovered, which is the only discriminating power the
claims need.
-/

namespace MinerInfo

/-- A script instruction: opcode byte plus push operand bytes. -/
structure Instr where
  opcode : Nat
  operand : List Nat
deriving DecidableEq, Repr

abbrev Script := List Instr

abbrev TxId := List Nat

structure OutPoint where
  txid : TxId
  n : Nat
deriving DecidableEq, Repr

structure TxOut where
  value : Int
  scriptPubKey : Script
deriving DecidableEq, Repr

structure TxIn where
  prevout : OutPoint
  sequence : Nat
  scriptSig : Script
deriving DecidableEq, Repr

structure Tx where
  vin : List TxIn
  vout : List TxOut
deriving DecidableEq, Repr

/-- `CTxIn::SEQUENCE_FINAL`. -/
def seqFinal : Nat := 0xffffffff

/-- First output's locking script (`tx->vout[0].scriptPubKey`); empty
transactions are modelled with the empty script. -/
def Tx.firstOutputScript (t : Tx) : Script :=
  match t.vout with
  | [] => []
  | o :: _ => o.scriptPubKey

def instrEnc (i : Instr) : List Nat :=
  i.opcode :: i.operand.length :: i.operand

def scriptEnc (s : Script) : List Nat := s.flatMap instrEnc

def scriptDec : List Nat → Script
  | [] => []
  | [_] => []
  | c :: k :: rest => ⟨c, rest.take k⟩ :: scriptDec (rest.drop k)
termination_by l => l.length
decreasing_by
  simp only [List.length_drop, List.length_cons]
  omega

def intEnc (v : Int) : List Nat := [v.toNat, (-v).toNat]

def outPointEnc (o : OutPoint) : List Nat := o.n :: o.txid

def txInEnc (x : TxIn) : List Nat :=
  x.sequence :: outPointEnc x.prevout ++ scriptEnc x.scriptSig

def txOutEnc (o : TxOut) : List Nat :=
  intEnc o.value ++ scriptEnc o.scriptPubKey

def txBodyEnc (t : Tx) : List Nat :=
  t.vin.length :: t.vin.flatMap txInEnc ++ t.vout.length :: t.vout.flatMap txOutEnc

/-- `CTransaction::GetId`, modelled as an injective encoding (hashes are
collision-free in the model); the first output's script is length-prefixed
in front so that it can be recovered from the id. -/
def Tx.getId (t : Tx) : TxId :=
  let f := scriptEnc t.firstOutputScript
  f.length :: (f ++ txBodyEnc t)

theorem scriptDec_scriptEnc (s : Script) : scriptDec (scriptEnc s) = s := by
  induction s with
  | nil => simp [scriptEnc, scriptDec]
  | cons i t ih =>
    cases i with
    | mk c d =>
      have h1 : scriptEnc (⟨c, d⟩ :: t) = c :: d.length :: (d ++ scriptEnc t) := by
        simp [scriptEnc, instrEnc]
      rw [h1, scriptDec, List.take_left, List.drop_left, ih]

theorem getId_firstOutputScript {t₁ t₂ : Tx} (h : t₁.getId = t₂.getId) :
    t₁.firstOutputScript = t₂.firstOutputScript := by
  unfold Tx.getId at h
  simp only [List.cons.injEq] at h
  obtain ⟨hlen, happ⟩ := h
  have := List.append_inj happ hlen
  have henc : scriptEnc t₁.firstOutputScript = scriptEnc t₂.firstOutputScript := this.1
  have := congrArg scriptDec henc
  rwa [scriptDec_scriptEnc, scriptDec_scriptEnc] at this

theorem getId_ne_of_firstOutputScript_ne {t₁ t₂ : Tx}
    (h : t₁.firstOutputScript ≠ t₂.firstOutputScript) : t₁.getId ≠ t₂.getId :=
  fun he => h (getId_firstOutputScript he)

/-- JSON values as held by `UniValue`. -/
inductive UniValue where
  | vnull : UniValue
  | vbool : Bool → UniValue
  | vnum : Int → UniValue
  | vstr : String → UniValue
  | varr : List UniValue → UniValue
  | vobj : List (String × UniValue) → UniValue

inductive UVType where
  | tnull | tbool | tnum | tstr | tarr | tobj
deriving DecidableEq, Repr

def UniValue.typeOf : UniValue → UVType
  | .vnull => .tnull
  | .vbool _ => .tbool
  | .vnum _ => .tnum
  | .vstr _ => .tstr
  | .varr _ => .tarr
  | .vobj _ => .tobj

/-- `find_value` / `UniValue::operator[]`: key lookup on an object; any
other value (or a missing key) yields the null value. -/
def findValue (o : UniValue) (k : String) : UniValue :=
  match o with
  | .vobj fields =>
    match fields.find? (fun f => f.1 == k) with
    | some f => f.2
    | none => .vnull
  | _ => .vnull

/-- `UniValue::exists`. -/
def uvExists (o : UniValue) (k : String) : Bool :=
  match o with
  | .vobj fields => fields.any (fun f => f.1 == k)
  | _ => false

def getStr : UniValue → String
  | .vstr s => s
  | _ => ""

def getInt : UniValue → Int
  | .vnum n => n
  | _ => 0

/-- Modelled from the spec: `RPCTypeCheckObj` (declared in `rpc/server.h`,
defined outside the excerpt) checks that each listed key is present on the
object with the listed type — "strict on required fields,
lenient/additional-allowed otherwise" (§4.1, §4.2: `SchemaError` if
required keys are absent or mistyped). -/
def typeCheckObj (o : UniValue) (expected : List (String × UVType)) : Bool :=
  expected.all (fun e => (findValue o e.1).typeOf == e.2)

/-- Modelled from the spec: an optional nested object is type-checked only
when present (§3: "optional nested objects"). -/
def typeCheckOptionalObj (o : UniValue) (k : String)
    (expected : List (String × UVType)) : Bool :=
  !(uvExists o k) || ((findValue o k).typeOf == UVType.tobj
      && typeCheckObj (findValue o k) expected)

/-- The leading instruction template of a miner-info output script:
`OP_FALSE OP_RETURN` then pushes of the 4-byte protocol id `0x601DFACE`
and the 1-byte version `0x00`. -/
def protocolTemplate : Script :=
  [⟨0x00, []⟩, ⟨0x6a, []⟩, ⟨4, [0x60, 0x1d, 0xfa, 0xce]⟩, ⟨1, [0x00]⟩]

inductive RpcErr where
  | envelopeMismatch (expected : Instr) (actual : Option Instr)
  | documentParseError (msg : String)
  | heightMismatch
  | fundingFailed (msg : String)
  | broadcastError (msg : String)
  | consistencyError (newHeight : Int)
deriving DecidableEq, Repr

/-- Walk the template against the script's leading instructions; on the
first deviation report expected vs. actual (`!its` — an exhausted script —
reports `none` as the actual instruction); on success return the
instructions following the template. -/
def checkEnvelope : Script → Script → Except RpcErr Script
  | [], rest => .ok rest
  | t :: _, [] => .error (.envelopeMismatch t none)
  | t :: ts, a :: as_ =>
    if a = t then checkEnvelope ts as_ else .error (.envelopeMismatch t (some a))

def requiredMinerInfoFields : List (String × UVType) :=
  [("version", .tstr), ("height", .tnum), ("prevMinerId", .tstr),
   ("prevMinerIdSig", .tstr), ("minerId", .tstr), ("prevRevocationKey", .tstr),
   ("prevRevocationKeySig", .tstr), ("revocationKey", .tstr)]

/-- The document schema checks of `ExtractMinerInfoDoc`: required string
fields and the numeric height, plus the two optional nested objects. -/
def minerInfoSchemaOk (j : UniValue) : Bool :=
  typeCheckObj j requiredMinerInfoFields
    && typeCheckOptionalObj j "revocationMessage" [("compromised_minerId", .tstr)]
    && typeCheckOptionalObj j "revocationMessageSig" [("sig1", .tstr), ("sig2", .tstr)]

/-- `ExtractMinerInfoDoc`: check the envelope template, then parse the
payload of the next push instruction with the external JSON reader
(`read`; a failed `UniValue::read` leaves the null value) and validate the
document schema. -/
def ExtractMinerInfoDoc (read : List Nat → UniValue) (scriptPubKey : Script) :
    Except RpcErr UniValue :=
  match checkEnvelope protocolTemplate scriptPubKey with
  | .error e => .error e
  | .ok rest =>
    match rest with
    | [] => .error (.documentParseError "no payload instruction")
    | p :: _ =>
      let j := read p.operand
      if minerInfoSchemaOk j then .ok j
      else .error (.documentParseError "schema violation")

/-- Modelled from the spec: `uint256S` (hex decoding, outside the
excerpt); an injective stand-in keeping the txid string's bytes. -/
def txidOfString (s : String) : TxId := s.toList.map Char.toNat

/-- The data `MinerInfoFunding` holds after `CreateFromFile`: the seed
outpoint plus the funding key material.  `privKeyFromStringBIP32` and
`DecodeDestination` are external; the model keeps the persisted strings. -/
structure FundingInfo where
  fundingSeed : OutPoint
  privKey : String
  destination : String
deriving DecidableEq, Repr

/-- `MinerInfoFunding::CreateFromFile`: read the two durable records
(`none` models a missing file/directory), check their schema, and extract
the key, destination and first funding outpoint. -/
def CreateFromFile (keyFile seedFile : Option UniValue) :
    Except String FundingInfo :=
  match seedFile, keyFile with
  | none, _ => .error "funding data file does not exist"
  | some _, none => .error "funding data file does not exist"
  | some fs, some fk =>
    if !(typeCheckObj fk [("fundingKey", .tobj)]) then
      .error "schema: fundingKey"
    else if !(typeCheckObj (findValue fk "fundingKey") [("privateBIP32", .tstr)]) then
      .error "schema: privateBIP32"
    else if !(typeCheckObj fs [("fundingDestination", .tobj), ("firstFundingOutpoint", .tobj)]) then
      .error "schema: fundingDestination or firstFundingOutpoint"
    else if !(typeCheckObj (findValue fs "fundingDestination") [("addressBase58", .tstr)]) then
      .error "schema: addressBase58"
    else if !(typeCheckObj (findValue fs "firstFundingOutpoint") [("txid", .tstr), ("n", .tnum)]) then
      .error "schema: txid or n"
    else
      let sPrivKey := getStr (findValue (findValue fk "fundingKey") "privateBIP32")
      let sDestination := getStr (findValue (findValue fs "fundingDestination") "addressBase58")
      let sFundingSeedId := getStr (findValue (findValue fs "firstFundingOutpoint") "txid")
      let fundingSeedIndex := (getInt (findValue (findValue fs "firstFundingOutpoint") "n")).toNat
      .ok ⟨⟨txidOfString sFundingSeedId, fundingSeedIndex⟩, sPrivKey, sDestination⟩

/-- The combined confirmed+mempool unspent-output view
(`CCoinsViewCache` over `CoinsDBView` and `CCoinsViewMemPool`): the listed
outpoints are exactly the unspent coins, with their outputs. -/
abbrev UtxoView := List (OutPoint × TxOut)

/-- `GetCoinWithScript` on the combined view. -/
def getCoin (view : UtxoView) (o : OutPoint) : Option TxOut :=
  match view.find? (fun e => e.1 == o) with
  | some e => some e.2
  | none => none

/-- `IsSpendable`: the outpoint resolves to an unspent coin. -/
def isSpendable (view : UtxoView) (o : OutPoint) : Bool :=
  (getCoin view o).isSome

/-- The scan of a previous transaction's outputs in index order: first
output with positive value whose outpoint is spendable. -/
def scanPrevOutputs (view : UtxoView) (ptxid : TxId) :
    List TxOut → Nat → Option OutPoint
  | [], _ => none
  | o :: rest, i =>
    if o.value > 0 && isSpendable view ⟨ptxid, i⟩ then some ⟨ptxid, i⟩
    else scanPrevOutputs view ptxid rest (i + 1)

/-- `ChooseFundingOutpoint`: the funding seed if spendable, otherwise the
first spendable positive-value output of the previous miner-info
transaction, otherwise an error. -/
def ChooseFundingOutpoint (view : UtxoView) (previousTx : Option Tx)
    (fundingSeed : OutPoint) : Except String OutPoint :=
  if isSpendable view fundingSeed then .ok fundingSeed
  else
    match previousTx with
    | some p =>
      match scanPrevOutputs view p.getId p.vout 0 with
      | some funds => .ok funds
      | none => .error "Could not use previous minerinfo-txn to fund next"
    | none => .error "Cannot find spendable funding transaction"

/-- Modelled from the spec: `GetScriptForDestination` (outside the
excerpt) — the standard pay-to-key-hash locking script of the funding
destination. -/
def scriptForDestination (d : String) : Script :=
  [⟨0x76, []⟩, ⟨0xa9, []⟩, ⟨20, d.toList.map Char.toNat⟩, ⟨0x88, []⟩, ⟨0xac, []⟩]

/-- Modelled from the spec: the unlocking script `ProduceSignature`
places on the single funding input (external crypto; content opaque to
the lifecycle logic). -/
def signatureScript (privKey : String) : Script :=
  [⟨72, privKey.toList.map Char.toNat⟩]

def setVin0Sig (t : Tx) (sig : Script) : Tx :=
  match t.vin with
  | [] => t
  | x :: rest => { t with vin := { x with scriptSig := sig } :: rest }

/-- `MinerInfoFunding::FundAndSignMinerInfoTx`: choose a funding outpoint,
look its coin up in the combined view, append the change output (the full
funding amount back to the funding destination) and the single final
input, then sign input 0.  Returns the signed transaction and the chosen
outpoint. -/
def FundAndSignMinerInfoTx (view : UtxoView) (fi : FundingInfo) (mtx : Tx)
    (previousTx : Option Tx) : Except String (Tx × OutPoint) :=
  match ChooseFundingOutpoint view previousTx fi.fundingSeed with
  | .error e => .error e
  | .ok fundingOutPoint =>
    match getCoin view fundingOutPoint with
    | none => .error "Cannot find funding UTXO's"
    | some coin =>
      let mtx1 : Tx :=
        { vin := mtx.vin ++ [⟨fundingOutPoint, seqFinal, []⟩],
          vout := mtx.vout ++ [⟨coin.value, scriptForDestination fi.destination⟩] }
      .ok (setVin0Sig mtx1 (signatureScript fi.privKey), fundingOutPoint)

/-- Node state visible to the lifecycle manager: tip height, mempool,
tracker cell, the combined unspent view, and the two durable funding
records. -/
structure NodeState where
  chainHeight : Int
  pool : List Tx
  trackerCurrent : Option TxId
  utxos : UtxoView
  keyFile : Option UniValue
  seedFile : Option UniValue

/-- External collaborators of one `CreateReplaceMinerinfotx` run:
the JSON reader, the previous miner-info transaction found by the
tracker's newest-first history search, the mempool's accept/reject
decision inside `sendrawtransaction`, and the tip height observed at the
post-broadcast re-check. -/
structure Env where
  read : List Nat → UniValue
  prevInfoTx : Option Tx
  rejects : Tx → Option String
  heightAfter : Int

/-- Observable actions of a run, in order. -/
inductive Event where
  | removedFromPool (txid : TxId)
  | trackerCleared
  | fundingAttempt
  | trackerSet (txid : TxId)
  | submitted (t : Tx) (allowHighFees dontCheckFee : Bool)
deriving DecidableEq, Repr

structure RunResult where
  result : Except RpcErr TxId
  state : NodeState
  events : List Event

def poolGet (pool : List Tx) (txid : TxId) : Option Tx :=
  pool.find? (fun t => t.getId == txid)

def poolRemove (pool : List Tx) (txid : TxId) : List Tx :=
  pool.filter (fun t => !(t.getId == txid))

structure CacheResult where
  cached : Option Tx
  pool : List Tx
  tracker : Option TxId
  events : List Event

/-- `GetCachedMinerInfoTx`: consult the tracker; if its transaction is in
the mempool, return it unless an override with a genuinely different
script was requested, in which case remove it (change-set applied) and
clear the tracker. -/
def GetCachedMinerInfoTx (pool : List Tx) (tracker : Option TxId)
    (overridetx : Bool) (scriptPubKey : Script) : CacheResult :=
  match tracker with
  | none => ⟨none, pool, tracker, []⟩
  | some current =>
    match poolGet pool current with
    | none => ⟨none, pool, tracker, []⟩
    | some tx =>
      if !overridetx then ⟨some tx, pool, tracker, []⟩
      else if tx.firstOutputScript = scriptPubKey then ⟨some tx, pool, tracker, []⟩
      else
        ⟨none, poolRemove pool tx.getId, none,
         [.removedFromPool tx.getId, .trackerCleared]⟩

/-- The broadcast stage: record the id into the tracker, submit via
`sendrawtransaction` with arguments `(hex, false, true)` (the `true`
disables the fee check), clear the tracker and fail on rejection,
otherwise re-check the tip height. -/
def submitStage (env : Env) (σ : NodeState) (blockHeight : Int) (tx : Tx)
    (evs : List Event) : RunResult :=
  let txid := tx.getId
  let σ2 := { σ with trackerCurrent := some txid }
  let evs2 := evs ++ [.trackerSet txid, .submitted tx false true]
  match env.rejects tx with
  | some msg =>
    ⟨.error (.broadcastError msg), { σ2 with trackerCurrent := none },
     evs2 ++ [.trackerCleared]⟩
  | none =>
    let σ3 := { σ2 with pool := tx :: σ2.pool }
    if blockHeight ≠ env.heightAfter + 1 then
      ⟨.error (.consistencyError (env.heightAfter + 1)), σ3, evs2⟩
    else
      ⟨.ok txid, σ3, evs2⟩

/-- Previous-transaction lookup, credential load, funding and signing:
the partial transaction starts with the zero-value envelope output. -/
def buildSigned (env : Env) (σ : NodeState) (scriptPubKey : Script) :
    Except String (Tx × OutPoint) :=
  match CreateFromFile σ.keyFile σ.seedFile with
  | .error msg => .error msg
  | .ok fi =>
    FundAndSignMinerInfoTx σ.utxos fi ⟨[], [⟨0, scriptPubKey⟩]⟩ env.prevInfoTx

/-- The stage after validation: build and sign (all failures become a
funding error), then broadcast. -/
def fundStage (env : Env) (σ : NodeState) (blockHeight : Int)
    (scriptPubKey : Script) (evs : List Event) : RunResult :=
  match buildSigned env σ scriptPubKey with
  | .error msg => ⟨.error (.fundingFailed msg), σ, evs ++ [.fundingAttempt]⟩
  | .ok (tx, _funds) => submitStage env σ blockHeight tx (evs ++ [.fundingAttempt])

/-- `CreateReplaceMinerinfotx`: the whole orchestration (run under the
process-wide lock). -/
def CreateReplaceMinerinfotx (env : Env) (σ : NodeState)
    (scriptPubKey : Script) (overridetx : Bool) : RunResult :=
  let blockHeight := σ.chainHeight + 1
  let c := GetCachedMinerInfoTx σ.pool σ.trackerCurrent overridetx scriptPubKey
  let σ1 := { σ with pool := c.pool, trackerCurrent := c.tracker }
  match c.cached with
  | some tx => ⟨.ok tx.getId, σ1, c.events⟩
  | none =>
    match ExtractMinerInfoDoc env.read scriptPubKey with
    | .error e => ⟨.error e, σ1, c.events⟩
    | .ok doc =>
      if getInt (findValue doc "height") ≠ blockHeight then
        ⟨.error .heightMismatch, σ1, c.events⟩
      else
        fundStage env σ1 blockHeight scriptPubKey c.events

/-- The `createminerinfotx` RPC (create-if-absent). -/
def createminerinfotx (env : Env) (σ : NodeState) (scriptPubKey : Script) :
    RunResult :=
  CreateReplaceMinerinfotx env σ scriptPubKey false

/-- The `replaceminerinfotx` RPC (override). -/
def replaceminerinfotx (env : Env) (σ : NodeState) (scriptPubKey : Script) :
    RunResult :=
  CreateReplaceMinerinfotx env σ scriptPubKey true

/-- The fixed 32-byte key seed used in regtest mode. -/
def regtestKeySeed : List Nat :=
  [0x00, 0x01, 0x02, 0x03, 0x04, 0x05, 0x06, 0x07, 0x08, 0x09, 0x0a, 0x0b,
   0x0c, 0x0d, 0x0e, 0x0f, 0x10, 0x11, 0x12, 0x13, 0x14, 0x15, 0x16, 0x17,
   0x18, 0x19, 0x1a, 0x1b, 0x1c, 0x1d, 0x1e, 0x1f]

/-- Modelled from the spec: BIP32 master-key derivation and
`CBitcoinExtKey` serialization (external crypto); a deterministic
injective stand-in on the key seed. -/
def bip32OfSeed (seed : List Nat) : String :=
  String.mk (seed.map Char.ofNat)

/-- Modelled from the spec: the base58 pay-to-key-hash address of the
public key derived from the master key (external crypto); a deterministic
stand-in on the key seed. -/
def addressOfSeed (seed : List Nat) : String :=
  String.mk ((seed.map (fun b => (b + 1) % 256)).map Char.ofNat)

/-- The record written to `.minerinfotxsigningkey.dat`. -/
def keyRecordOfSeed (seed : List Nat) : UniValue :=
  .vobj [("fundingKey", .vobj [("privateBIP32", .vstr (bip32OfSeed seed))])]

/-- The record written to `minerinfotxfunding.dat` by
`makeminerinfotxsigningkey`: the funding destination only. -/
def destRecordOfSeed (seed : List Nat) : UniValue :=
  .vobj [("fundingDestination", .vobj [("addressBase58", .vstr (addressOfSeed seed))])]

/-- `makeminerinfotxsigningkey`: in regtest mode the key seed is the
fixed byte sequence, otherwise fresh entropy (`MakeNewKey`); both durable
records are overwritten with the derived key and destination.  Returns
the new `(keyFile, seedFile)` contents. -/
def makeminerinfotxsigningkey (regtest : Bool) (entropy : List Nat) :
    UniValue × UniValue :=
  let seed := if regtest then regtestKeySeed else entropy
  (keyRecordOfSeed seed, destRecordOfSeed seed)

/-- `setminerinfotxfundingoutpoint`: read the funding-seed record, keep
its `fundingDestination` and replace `firstFundingOutpoint` with the
supplied txid and index, then rewrite the record. -/
def setminerinfotxfundingoutpoint (txid : String) (n : Int)
    (seedFile : Option UniValue) : Except String UniValue :=
  match seedFile with
  | none => .error "funding data file does not exist"
  | some fs =>
    .ok (.vobj [("fundingDestination", findValue fs "fundingDestination"),
                ("firstFundingOutpoint", .vobj [("txid", .vstr txid), ("n", .vnum n)])])

theorem scanPrevOutputs_eq_some (view : UtxoView) (ptxid : TxId) :
    ∀ (outs : List TxOut) (k i : Nat) (o : TxOut),
    outs.get? i = some o → o.value > 0 → isSpendable view ⟨ptxid, k + i⟩ = true →
    (∀ j, j < i → ∀ u, outs.get? j = some u →
        ¬(u.value > 0 ∧ isSpendable view ⟨ptxid, k + j⟩ = true)) →
    scanPrevOutputs view ptxid outs k = some ⟨ptxid, k + i⟩ := by
  intro outs
  induction outs with
  | nil => intro k i o hg; simp at hg
  | cons o0 rest ih =>
    intro k i o hg hv hs hmin
    cases i with
    | zero =>
      simp only [List.get?] at hg
      cases hg
      simp only [scanPrevOutputs]
      rw [if_pos (by
        simp only [Bool.and_eq_true, decide_eq_true_eq]
        exact ⟨hv, by simpa using hs⟩)]
      rfl
    | succ j =>
      have h0 := hmin 0 (Nat.succ_pos j) o0 rfl
      simp only [scanPrevOutputs]
      rw [if_neg]
      · have hrec := ih (k + 1) j o hg hv (by
          have : k + 1 + j = k + (j + 1) := by omega
          rwa [this])
          (by
            intro j2 hj2 u hu
            have := hmin (j2 + 1) (by omega) u hu
            have he : k + 1 + j2 = k + (j2 + 1) := by omega
            rwa [he])
        rw [hrec]
        have : k + 1 + j = k + (j + 1) := by omega
        rw [this]
      · intro hc
        simp only [Bool.and_eq_true, decide_eq_true_eq] at hc
        exact h0 ⟨hc.1, by simpa using hc.2⟩

theorem scanPrevOutputs_eq_none (view : UtxoView) (ptxid : TxId) :
    ∀ (outs : List TxOut) (k : Nat),
    (∀ j u, outs.get? j = some u →
        ¬(u.value > 0 ∧ isSpendable view ⟨ptxid, k + j⟩ = true)) →
    scanPrevOutputs view ptxid outs k = none := by
  intro outs
  induction outs with
  | nil => intro k _; rfl
  | cons o0 rest ih =>
    intro k hall
    simp only [scanPrevOutputs]
    rw [if_neg]
    · exact ih (k + 1) (by
        intro j u hu
        have := hall (j + 1) u hu
        have he : k + 1 + j = k + (j + 1) := by omega
        rwa [he])
    · intro hc
      simp only [Bool.and_eq_true, decide_eq_true_eq] at hc
      exact hall 0 o0 rfl ⟨hc.1, by simpa using hc.2⟩

/-- C5: `ChooseFundingOutpoint` returns the funding seed whenever it is
spendable, regardless of the previous transaction; otherwise, if a
previous miner-info transaction is supplied, it returns the first (in
index order) spendable positive-value output of that transaction; and if
neither the seed nor any previous-transaction output qualifies, it fails
with a no-spendable-funding error. -/
theorem chooseFundingOutpoint_spec (view : UtxoView) (prev : Option Tx)
    (seed : OutPoint) :
    (isSpendable view seed = true →
      ChooseFundingOutpoint view prev seed = .ok seed)
    ∧ (isSpendable view seed = false →
      ∀ p, prev = some p →
      ∀ i o, p.vout.get? i = some o → o.value > 0 →
      isSpendable view ⟨p.getId, i⟩ = true →
      (∀ j, j < i → ∀ u, p.vout.get? j = some u →
          ¬(u.value > 0 ∧ isSpendable view ⟨p.getId, j⟩ = true)) →
      ChooseFundingOutpoint view prev seed = .ok ⟨p.getId, i⟩)
    ∧ (isSpendable view seed = false →
      (∀ p, prev = some p → ∀ j u, p.vout.get? j = some u →
          ¬(u.value > 0 ∧ isSpendable view ⟨p.getId, j⟩ = true)) →
      ∃ msg, ChooseFundingOutpoint view prev seed = .error msg) := by
  refine ⟨?_, ?_, ?_⟩
  · intro hs
    simp [ChooseFundingOutpoint, hs]
  · intro hs p hp i o hg hv hsp hmin
    subst hp
    have hscan := scanPrevOutputs_eq_some view p.getId p.vout 0 i o
      (by simpa using hg) hv (by simpa using hsp)
      (by intro j hj u hu; simpa using hmin j hj u hu)
    rw [Nat.zero_add] at hscan
    simp only [ChooseFundingOutpoint, hs, Bool.false_eq_true, if_false]
    rw [hscan]
  · intro hs hall
    cases prev with
    | none =>
      exact ⟨"Cannot find spendable funding transaction",
        by simp [ChooseFundingOutpoint, hs]⟩
    | some p =>
      have hscan := scanPrevOutputs_eq_none view p.getId p.vout 0
        (by intro j u hu; simpa using hall p rfl j u hu)
      refine ⟨"Could not use previous minerinfo-txn to fund next", ?_⟩
      simp only [ChooseFundingOutpoint, hs, Bool.false_eq_true, if_false]
      rw [hscan]

def exampleView : UtxoView := [(⟨[9, 9], 0⟩, ⟨5, []⟩)]

def examplePrevTx : Tx := ⟨[], [⟨0, []⟩, ⟨5, []⟩]⟩

def exampleViewPrev : UtxoView := [(⟨examplePrevTx.getId, 1⟩, ⟨5, []⟩)]

/-- C5 witness: the three branches of `chooseFundingOutpoint_spec` at
concrete inputs. -/
theorem chooseFundingOutpoint_spec_witness :
    ChooseFundingOutpoint exampleView (some examplePrevTx) ⟨[9, 9], 0⟩ = .ok ⟨[9, 9], 0⟩
    ∧ ChooseFundingOutpoint exampleViewPrev (some examplePrevTx) ⟨[7], 0⟩
        = .ok ⟨examplePrevTx.getId, 1⟩
    ∧ ∃ msg, ChooseFundingOutpoint [] (some examplePrevTx) ⟨[7], 0⟩ = .error msg := by
  refine ⟨?_, ?_, ?_⟩
  · exact (chooseFundingOutpoint_spec exampleView (some examplePrevTx) ⟨[9, 9], 0⟩).1
      (by decide)
  · exact (chooseFundingOutpoint_spec exampleViewPrev (some examplePrevTx) ⟨[7], 0⟩).2.1
      (by decide) examplePrevTx rfl 1 ⟨5, []⟩ (by decide) (by decide) (by decide)
      (by decide)
  · exact (chooseFundingOutpoint_spec [] (some examplePrevTx) ⟨[7], 0⟩).2.2
      (by decide)
      (by
        intro p hp j u _ hc
        cases hp
        simp [isSpendable, getCoin, List.find?] at hc)

theorem checkEnvelope_ok_iff (t : Script) :
    ∀ (s r : Script), checkEnvelope t s = .ok r ↔ s = t ++ r := by
  induction t with
  | nil =>
    intro s r
    simp only [checkEnvelope, List.nil_append]
    constructor
    · intro h; cases h; rfl
    · intro h; cases h; rfl
  | cons t0 ts ih =>
    intro s r
    cases s with
    | nil => simp [checkEnvelope]
    | cons a as_ =>
      simp only [checkEnvelope]
      by_cases ha : a = t0
      · rw [if_pos ha, ih]
        subst ha
        simp
      · rw [if_neg ha]
        simp only [List.cons_append, List.cons.injEq]
        constructor
        · intro h; cases h
        · intro h; exact absurd h.1 ha

theorem checkEnvelope_error_shape (t : Script) :
    ∀ (s : Script) (err : RpcErr), checkEnvelope t s = .error err →
    ∃ exp act, err = .envelopeMismatch exp act := by
  induction t with
  | nil => intro s err h; cases h
  | cons t0 ts ih =>
    intro s err h
    cases s with
    | nil =>
      simp only [checkEnvelope, Except.error.injEq] at h
      exact ⟨t0, none, h.symm⟩
    | cons a as_ =>
      simp only [checkEnvelope] at h
      by_cases ha : a = t0
      · rw [if_pos ha] at h
        exact ih as_ err h
      · rw [if_neg ha] at h
        simp only [Except.error.injEq] at h
        exact ⟨t0, some a, h.symm⟩

/-- C7: `ExtractMinerInfoDoc` fails with an envelope-mismatch error
whenever the script's leading instructions are not exactly the template
{push-false, return-marker, 4-byte magic 0x601DFACE, 1-byte version
0x00}; it fails with a document-parse error when the following push's
payload does not satisfy the document schema (an unparsable payload is
the null value, which satisfies nothing); and it succeeds only when the
template matches exactly and the payload satisfies the schema. -/
theorem extractMinerInfoDoc_spec (read : List Nat → UniValue) (s : Script) :
    ((¬ ∃ r, s = protocolTemplate ++ r) →
      ∃ exp act, ExtractMinerInfoDoc read s = .error (.envelopeMismatch exp act))
    ∧ (∀ p tail, s = protocolTemplate ++ p :: tail →
      minerInfoSchemaOk (read p.operand) = false →
      ∃ m, ExtractMinerInfoDoc read s = .error (.documentParseError m))
    ∧ (∀ j, ExtractMinerInfoDoc read s = .ok j →
      ∃ p tail, s = protocolTemplate ++ p :: tail ∧ j = read p.operand
        ∧ minerInfoSchemaOk j = true) := by
  refine ⟨?_, ?_, ?_⟩
  · intro hnp
    cases hc : checkEnvelope protocolTemplate s with
    | ok r => exact absurd ⟨r, (checkEnvelope_ok_iff protocolTemplate s r).mp hc⟩ hnp
    | error err =>
      obtain ⟨exp, act, he⟩ := checkEnvelope_error_shape protocolTemplate s err hc
      refine ⟨exp, act, ?_⟩
      simp only [ExtractMinerInfoDoc, hc, he]
  · intro p tail hps hschema
    have hc : checkEnvelope protocolTemplate s = .ok (p :: tail) :=
      (checkEnvelope_ok_iff protocolTemplate s (p :: tail)).mpr hps
    refine ⟨"schema violation", ?_⟩
    simp only [ExtractMinerInfoDoc, hc, hschema, Bool.false_eq_true, if_false]
  · intro j hj
    cases hc : checkEnvelope protocolTemplate s with
    | error err =>
      simp only [ExtractMinerInfoDoc, hc] at hj
      cases hj
    | ok rest =>
      simp only [ExtractMinerInfoDoc, hc] at hj
      cases rest with
      | nil => cases hj
      | cons p tail =>
        have hj2 : (if minerInfoSchemaOk (read p.operand) = true
            then Except.ok (read p.operand)
            else Except.error (RpcErr.documentParseError "schema violation"))
            = Except.ok j := hj
        by_cases hschema : minerInfoSchemaOk (read p.operand) = true
        · rw [if_pos hschema] at hj2
          cases hj2
          exact ⟨p, tail, (checkEnvelope_ok_iff protocolTemplate s (p :: tail)).mp hc,
            rfl, hschema⟩
        · rw [if_neg hschema] at hj2
          cases hj2

/-- A schema-complete miner-info document for height 101. -/
def exampleDoc : UniValue :=
  .vobj [("version", .vstr "0.3"), ("height", .vnum 101),
         ("prevMinerId", .vstr "a"), ("prevMinerIdSig", .vstr "b"),
         ("minerId", .vstr "c"), ("prevRevocationKey", .vstr "d"),
         ("prevRevocationKeySig", .vstr "e"), ("revocationKey", .vstr "f")]

/-- A JSON reader that parses the payload bytes `[0x7b, 0x7d]` to the
example document and fails (null) on everything else. -/
def exampleRead (payload : List Nat) : UniValue :=
  if payload = [0x7b, 0x7d] then exampleDoc else .vnull

def exampleScript : Script := protocolTemplate ++ [⟨2, [0x7b, 0x7d]⟩]

def exampleBadPayloadScript : Script := protocolTemplate ++ [⟨2, [0x00]⟩]

/-- C7 witness: the three branches of `extractMinerInfoDoc_spec` at
concrete scripts. -/
theorem extractMinerInfoDoc_spec_witness :
    (∃ exp act, ExtractMinerInfoDoc exampleRead [⟨0x51, []⟩]
      = .error (.envelopeMismatch exp act))
    ∧ (∃ m, ExtractMinerInfoDoc exampleRead exampleBadPayloadScript
      = .error (.documentParseError m))
    ∧ ∃ p tail, exampleScript = protocolTemplate ++ p :: tail
        ∧ exampleDoc = exampleRead p.operand
        ∧ minerInfoSchemaOk exampleDoc = true := by
  refine ⟨?_, ?_, ?_⟩
  · exact (extractMinerInfoDoc_spec exampleRead [⟨0x51, []⟩]).1
      (by
        intro hr
        obtain ⟨r, hr⟩ := hr
        simp [protocolTemplate] at hr)
  · exact (extractMinerInfoDoc_spec exampleRead exampleBadPayloadScript).2.1
      ⟨2, [0x00]⟩ [] rfl rfl
  · exact (extractMinerInfoDoc_spec exampleRead exampleScript).2.2 exampleDoc rfl

/-- C8: `setminerinfotxfundingoutpoint` on an existing funding-seed
record rewrites it with the `fundingDestination` taken unchanged from the
prior record, replacing only `firstFundingOutpoint` with the supplied
txid and index. -/
theorem setFundingOutpoint_preserves_destination (fs : UniValue)
    (txid : String) (n : Int) :
    ∃ r, setminerinfotxfundingoutpoint txid n (some fs) = .ok r
      ∧ findValue r "fundingDestination" = findValue fs "fundingDestination"
      ∧ findValue r "firstFundingOutpoint"
          = .vobj [("txid", .vstr txid), ("n", .vnum n)] := by
  refine ⟨_, rfl, ?_, ?_⟩
  · simp [findValue, List.find?]
  · simp [findValue, List.find?]

/-- C9: after `makeminerinfotxsigningkey` the funding-seed record holds
only the `fundingDestination` object — any previously stored funding
outpoint is discarded by the overwrite — and `CreateFromFile` fails its
schema check until `setminerinfotxfundingoutpoint` is invoked, after
which it succeeds. -/
theorem makeSigningKey_discards_outpoint (regtest : Bool) (entropy : List Nat) :
    (∃ d, (makeminerinfotxsigningkey regtest entropy).2 = .vobj [("fundingDestination", d)])
    ∧ findValue (makeminerinfotxsigningkey regtest entropy).2 "firstFundingOutpoint" = .vnull
    ∧ (∃ m, CreateFromFile (some (makeminerinfotxsigningkey regtest entropy).1)
        (some (makeminerinfotxsigningkey regtest entropy).2) = .error m)
    ∧ (∀ txid n r, setminerinfotxfundingoutpoint txid n
          (some (makeminerinfotxsigningkey regtest entropy).2) = .ok r →
        ∃ fi, CreateFromFile (some (makeminerinfotxsigningkey regtest entropy).1)
          (some r) = .ok fi) := by
  refine ⟨⟨_, rfl⟩, rfl, ⟨"schema: fundingDestination or firstFundingOutpoint", rfl⟩, ?_⟩
  intro txid n r h
  simp only [setminerinfotxfundingoutpoint, Except.ok.injEq] at h
  subst h
  exact ⟨_, rfl⟩

/-- C9 witness: the record rewrite and reload at concrete inputs. -/
theorem makeSigningKey_discards_outpoint_witness :
    ∃ fi, CreateFromFile (some (makeminerinfotxsigningkey true []).1)
      (some (.vobj [("fundingDestination",
          findValue (makeminerinfotxsigningkey true []).2 "fundingDestination"),
        ("firstFundingOutpoint", .vobj [("txid", .vstr "ab"), ("n", .vnum 0)])]))
      = .ok fi :=
  (makeSigningKey_discards_outpoint true []).2.2.2 "ab" 0 _ rfl

/-- C10: in regtest mode `makeminerinfotxsigningkey` is deterministic —
the persisted key and destination records are independent of the entropy
source, and are those derived from the fixed 32-byte seed 0x00..0x1f. -/
theorem makeSigningKey_regtest_deterministic (e₁ e₂ : List Nat) :
    makeminerinfotxsigningkey true e₁ = makeminerinfotxsigningkey true e₂
    ∧ makeminerinfotxsigningkey true e₁
      = (keyRecordOfSeed
          [0x00, 0x01, 0x02, 0x03, 0x04, 0x05, 0x06, 0x07, 0x08, 0x09, 0x0a,
           0x0b, 0x0c, 0x0d, 0x0e, 0x0f, 0x10, 0x11, 0x12, 0x13, 0x14, 0x15,
           0x16, 0x17, 0x18, 0x19, 0x1a, 0x1b, 0x1c, 0x1d, 0x1e, 0x1f],
         destRecordOfSeed
          [0x00, 0x01, 0x02, 0x03, 0x04, 0x05, 0x06, 0x07, 0x08, 0x09, 0x0a,
           0x0b, 0x0c, 0x0d, 0x0e, 0x0f, 0x10, 0x11, 0x12, 0x13, 0x14, 0x15,
           0x16, 0x17, 0x18, 0x19, 0x1a, 0x1b, 0x1c, 0x1d, 0x1e, 0x1f]) :=
  ⟨rfl, rfl⟩

abbrev cacheOf (σ : NodeState) (ov : Bool) (s : Script) : CacheResult :=
  GetCachedMinerInfoTx σ.pool σ.trackerCurrent ov s

abbrev postCacheState (σ : NodeState) (ov : Bool) (s : Script) : NodeState :=
  { σ with pool := (cacheOf σ ov s).pool, trackerCurrent := (cacheOf σ ov s).tracker }

abbrev cacheEvents (σ : NodeState) (ov : Bool) (s : Script) : List Event :=
  (cacheOf σ ov s).events

theorem poolGet_some {pool : List Tx} {id : TxId} {tx : Tx}
    (h : poolGet pool id = some tx) : tx.getId = id ∧ tx ∈ pool := by
  unfold poolGet at h
  have h1 := List.find?_some h
  have h2 := List.mem_of_find?_eq_some h
  simp only [beq_iff_eq] at h1
  exact ⟨h1, h2⟩

theorem poolGet_poolRemove (pool : List Tx) (id : TxId) :
    poolGet (poolRemove pool id) id = none := by
  unfold poolGet poolRemove
  rw [List.find?_eq_none]
  intro t ht
  have := (List.mem_filter.mp ht).2
  simp only [Bool.not_eq_true', beq_eq_false_iff_ne, ne_eq] at this
  simp [this]

theorem poolGet_cons_ne {t : Tx} {id : TxId} (pool : List Tx)
    (h : t.getId ≠ id) : poolGet (t :: pool) id = poolGet pool id := by
  unfold poolGet
  rw [List.find?_cons_of_neg]
  simp [h]

theorem cache_cached_some {pool : List Tx} {tracker : Option TxId} {ov : Bool}
    {s : Script} {tx : Tx}
    (h : (GetCachedMinerInfoTx pool tracker ov s).cached = some tx) :
    GetCachedMinerInfoTx pool tracker ov s = ⟨some tx, pool, tracker, []⟩
    ∧ ∃ cur, tracker = some cur ∧ poolGet pool cur = some tx := by
  cases tracker with
  | none => simp [GetCachedMinerInfoTx] at h
  | some cur =>
    cases hpg : poolGet pool cur with
    | none => simp [GetCachedMinerInfoTx, hpg] at h
    | some tx0 =>
      cases ov with
      | false =>
        simp only [GetCachedMinerInfoTx, hpg, Bool.not_false, if_true] at h ⊢
        cases h
        exact ⟨rfl, cur, rfl, hpg⟩
      | true =>
        by_cases hfo : tx0.firstOutputScript = s
        · simp only [GetCachedMinerInfoTx, hpg, Bool.not_true, Bool.false_eq_true,
            if_false, if_pos hfo] at h ⊢
          cases h
          exact ⟨rfl, cur, rfl, hpg⟩
        · simp only [GetCachedMinerInfoTx, hpg, Bool.not_true, Bool.false_eq_true,
            if_false, if_neg hfo] at h
          cases h

theorem cache_hit_of {pool : List Tx} {cur : TxId} {tx : Tx} (s : Script)
    (h : poolGet pool cur = some tx) :
    GetCachedMinerInfoTx pool (some cur) false s = ⟨some tx, pool, some cur, []⟩ := by
  simp [GetCachedMinerInfoTx, h]

theorem cache_no_removal (pool : List Tx) (tracker : Option TxId) (s : Script) :
    ∃ co, GetCachedMinerInfoTx pool tracker false s = ⟨co, pool, tracker, []⟩ := by
  cases tracker with
  | none => exact ⟨none, by simp [GetCachedMinerInfoTx]⟩
  | some cur =>
    cases hpg : poolGet pool cur with
    | none => exact ⟨none, by simp [GetCachedMinerInfoTx, hpg]⟩
    | some tx0 => exact ⟨some tx0, by simp [GetCachedMinerInfoTx, hpg]⟩

theorem cache_events_shape (pool : List Tx) (tracker : Option TxId) (ov : Bool)
    (s : Script) :
    (GetCachedMinerInfoTx pool tracker ov s).events = []
    ∨ ∃ t, (GetCachedMinerInfoTx pool tracker ov s).events
        = [.removedFromPool t, .trackerCleared] := by
  cases tracker with
  | none => exact .inl (by simp [GetCachedMinerInfoTx])
  | some cur =>
    cases hpg : poolGet pool cur with
    | none => exact .inl (by simp [GetCachedMinerInfoTx, hpg])
    | some tx0 =>
      cases ov with
      | false => exact .inl (by simp [GetCachedMinerInfoTx, hpg])
      | true =>
        by_cases hfo : tx0.firstOutputScript = s
        · exact .inl (by simp [GetCachedMinerInfoTx, hpg, hfo])
        · exact .inr ⟨tx0.getId, by simp [GetCachedMinerInfoTx, hpg, hfo]⟩

theorem run_cache_hit (env : Env) {σ : NodeState} {s : Script} {ov : Bool}
    {tx : Tx} (h : (cacheOf σ ov s).cached = some tx) :
    CreateReplaceMinerinfotx env σ s ov = ⟨.ok tx.getId, σ, []⟩ := by
  obtain ⟨heq, _⟩ := cache_cached_some h
  simp only [CreateReplaceMinerinfotx]
  rw [heq]

theorem run_cache_none (env : Env) {σ : NodeState} {s : Script} {ov : Bool}
    (h : (cacheOf σ ov s).cached = none) :
    CreateReplaceMinerinfotx env σ s ov =
      match ExtractMinerInfoDoc env.read s with
      | .error e => ⟨.error e, postCacheState σ ov s, cacheEvents σ ov s⟩
      | .ok doc =>
        if getInt (findValue doc "height") ≠ σ.chainHeight + 1 then
          ⟨.error .heightMismatch, postCacheState σ ov s, cacheEvents σ ov s⟩
        else
          fundStage env (postCacheState σ ov s) (σ.chainHeight + 1) s
            (cacheEvents σ ov s) := by
  simp only [CreateReplaceMinerinfotx, postCacheState, cacheEvents, cacheOf] at h ⊢
  rw [h]

theorem fundAndSign_ok_shape {view : UtxoView} {fi : FundingInfo}
    {prev : Option Tx} {s : Script} {tx : Tx} {funds : OutPoint}
    (h : FundAndSignMinerInfoTx view fi ⟨[], [⟨0, s⟩]⟩ prev = .ok (tx, funds)) :
    ∃ coin, getCoin view funds = some coin
      ∧ tx = ⟨[⟨funds, seqFinal, signatureScript fi.privKey⟩],
              [⟨0, s⟩, ⟨coin.value, scriptForDestination fi.destination⟩]⟩ := by
  cases hch : ChooseFundingOutpoint view prev fi.fundingSeed with
  | error e => simp [FundAndSignMinerInfoTx, hch] at h
  | ok fo =>
    cases hco : getCoin view fo with
    | none => simp [FundAndSignMinerInfoTx, hch, hco] at h
    | some coin =>
      simp only [FundAndSignMinerInfoTx, hch, hco, Except.ok.injEq, Prod.mk.injEq] at h
      obtain ⟨htx, hfo⟩ := h
      subst hfo
      refine ⟨coin, hco, ?_⟩
      rw [← htx]
      rfl

theorem buildSigned_ok_shape {env : Env} {σ : NodeState} {s : Script}
    {tx : Tx} {funds : OutPoint}
    (h : buildSigned env σ s = .ok (tx, funds)) :
    ∃ fi coin, CreateFromFile σ.keyFile σ.seedFile = .ok fi
      ∧ getCoin σ.utxos funds = some coin
      ∧ tx = ⟨[⟨funds, seqFinal, signatureScript fi.privKey⟩],
              [⟨0, s⟩, ⟨coin.value, scriptForDestination fi.destination⟩]⟩ := by
  cases hcf : CreateFromFile σ.keyFile σ.seedFile with
  | error m => simp [buildSigned, hcf] at h
  | ok fi =>
    simp only [buildSigned, hcf] at h
    obtain ⟨coin, hco, htx⟩ := fundAndSign_ok_shape h
    exact ⟨fi, coin, rfl, hco, htx⟩

theorem buildSigned_firstOutputScript {env : Env} {σ : NodeState} {s : Script}
    {tx : Tx} {funds : OutPoint} (h : buildSigned env σ s = .ok (tx, funds)) :
    tx.firstOutputScript = s := by
  obtain ⟨fi, coin, _, _, htx⟩ := buildSigned_ok_shape h
  rw [htx]
  rfl

theorem createReplace_cases (env : Env) (σ : NodeState) (s : Script) (ov : Bool) :
    (∃ tx, (cacheOf σ ov s).cached = some tx
       ∧ CreateReplaceMinerinfotx env σ s ov = ⟨.ok tx.getId, σ, []⟩)
    ∨ ((cacheOf σ ov s).cached = none ∧
      ((∃ e, ExtractMinerInfoDoc env.read s = .error e
          ∧ CreateReplaceMinerinfotx env σ s ov
            = ⟨.error e, postCacheState σ ov s, cacheEvents σ ov s⟩)
      ∨ (∃ doc, ExtractMinerInfoDoc env.read s = .ok doc
          ∧ getInt (findValue doc "height") ≠ σ.chainHeight + 1
          ∧ CreateReplaceMinerinfotx env σ s ov
            = ⟨.error .heightMismatch, postCacheState σ ov s, cacheEvents σ ov s⟩)
      ∨ (∃ doc, ExtractMinerInfoDoc env.read s = .ok doc
          ∧ getInt (findValue doc "height") = σ.chainHeight + 1
          ∧ ((∃ m, buildSigned env (postCacheState σ ov s) s = .error m
              ∧ CreateReplaceMinerinfotx env σ s ov
                = ⟨.error (.fundingFailed m), postCacheState σ ov s,
                   cacheEvents σ ov s ++ [.fundingAttempt]⟩)
            ∨ (∃ tx funds, buildSigned env (postCacheState σ ov s) s = .ok (tx, funds)
              ∧ ((∃ m, env.rejects tx = some m
                  ∧ CreateReplaceMinerinfotx env σ s ov
                    = ⟨.error (.broadcastError m),
                       { postCacheState σ ov s with trackerCurrent := none },
                       cacheEvents σ ov s ++ [.fundingAttempt, .trackerSet tx.getId,
                         .submitted tx false true, .trackerCleared]⟩)
                ∨ (env.rejects tx = none ∧ env.heightAfter ≠ σ.chainHeight
                  ∧ CreateReplaceMinerinfotx env σ s ov
                    = ⟨.error (.consistencyError (env.heightAfter + 1)),
                       { postCacheState σ ov s with
                         trackerCurrent := some tx.getId,
                         pool := tx :: (cacheOf σ ov s).pool },
                       cacheEvents σ ov s ++ [.fundingAttempt, .trackerSet tx.getId,
                         .submitted tx false true]⟩)
                ∨ (env.rejects tx = none ∧ env.heightAfter = σ.chainHeight
                  ∧ CreateReplaceMinerinfotx env σ s ov
                    = ⟨.ok tx.getId,
                       { postCacheState σ ov s with
                         trackerCurrent := some tx.getId,
                         pool := tx :: (cacheOf σ ov s).pool },
                       cacheEvents σ ov s ++ [.fundingAttempt, .trackerSet tx.getId,
                         .submitted tx false true]⟩))))))) := by
  cases hcc : (cacheOf σ ov s).cached with
  | some tx => exact .inl ⟨tx, rfl, run_cache_hit env hcc⟩
  | none =>
    refine .inr ⟨rfl, ?_⟩
    rw [run_cache_none env hcc]
    cases hext : ExtractMinerInfoDoc env.read s with
    | error e => exact .inl ⟨e, rfl, rfl⟩
    | ok doc =>
      dsimp only
      by_cases hh : getInt (findValue doc "height") = σ.chainHeight + 1
      · refine .inr (.inr ⟨doc, rfl, hh, ?_⟩)
        rw [if_neg (by simpa using hh)]
        cases hbs : buildSigned env (postCacheState σ ov s) s with
        | error m =>
          exact .inl ⟨m, rfl, by simp only [fundStage, hbs]⟩
        | ok p =>
          obtain ⟨tx, funds⟩ := p
          refine .inr ⟨tx, funds, rfl, ?_⟩
          cases hrej : env.rejects tx with
          | some m =>
            refine .inl ⟨m, rfl, ?_⟩
            simp only [fundStage, hbs, submitStage, hrej]
            refine congrArg (RunResult.mk _ _) ?_
            simp
          | none =>
            by_cases hha : env.heightAfter = σ.chainHeight
            · refine .inr (.inr ⟨rfl, hha, ?_⟩)
              simp only [fundStage, hbs, submitStage, hrej]
              rw [if_neg (by omega)]
              refine congrArg (RunResult.mk _ _) ?_
              simp
            · refine .inr (.inl ⟨rfl, hha, ?_⟩)
              simp only [fundStage, hbs, submitStage, hrej]
              rw [if_pos (by omega)]
              refine congrArg (RunResult.mk _ _) ?_
              simp
      · refine .inr (.inl ⟨doc, rfl, hh, ?_⟩)
        rw [if_pos (by simpa using hh)]

theorem extract_error_shape {read : List Nat → UniValue} {s : Script} {e : RpcErr}
    (h : ExtractMinerInfoDoc read s = .error e) :
    (∃ i a, e = .envelopeMismatch i a) ∨ ∃ m, e = .documentParseError m := by
  cases hc : checkEnvelope protocolTemplate s with
  | error err =>
    simp only [ExtractMinerInfoDoc, hc, Except.error.injEq] at h
    subst h
    exact .inl (checkEnvelope_error_shape _ _ _ hc)
  | ok rest =>
    simp only [ExtractMinerInfoDoc, hc] at h
    cases rest with
    | nil =>
      have h2 : Except.error (ε := RpcErr) (α := UniValue)
          (.documentParseError "no payload instruction") = .error e := h
      injection h2 with h3
      exact .inr ⟨"no payload instruction", h3.symm⟩
    | cons p tail =>
      have h2 : (if minerInfoSchemaOk (read p.operand) = true
          then Except.ok (read p.operand)
          else Except.error (RpcErr.documentParseError "schema violation"))
          = Except.error e := h
      by_cases hs2 : minerInfoSchemaOk (read p.operand) = true
      · rw [if_pos hs2] at h2
        cases h2
      · rw [if_neg hs2] at h2
        injection h2 with h3
        exact .inr ⟨"schema violation", h3.symm⟩

theorem cacheEvents_no_submitted (σ : NodeState) (ov : Bool) (s : Script)
    (tx : Tx) (a d : Bool) : Event.submitted tx a d ∉ cacheEvents σ ov s := by
  rcases cache_events_shape σ.pool σ.trackerCurrent ov s with h | ⟨t, h⟩ <;>
    simp [cacheEvents, cacheOf, h]

/-- C1 (amended): if the transaction was built, signed and submitted
(accepted) but the re-read tip height differs from the entry height, the
operation fails with the consistency error; however the tracker's current
transaction id is NOT cleared on this path — it remains set to the new
transaction's id, and the transaction remains in the pending pool. -/
theorem consistencyError_keeps_tracker (env : Env) (σ : NodeState) (s : Script)
    (ov : Bool) :
    ((∃ tx, Event.submitted tx false true ∈ (CreateReplaceMinerinfotx env σ s ov).events
        ∧ env.rejects tx = none) →
      env.heightAfter ≠ σ.chainHeight →
      (CreateReplaceMinerinfotx env σ s ov).result
        = .error (.consistencyError (env.heightAfter + 1)))
    ∧ (∀ ht, (CreateReplaceMinerinfotx env σ s ov).result
          = .error (.consistencyError ht) →
      ∃ tx, (CreateReplaceMinerinfotx env σ s ov).state.trackerCurrent = some tx.getId
        ∧ tx ∈ (CreateReplaceMinerinfotx env σ s ov).state.pool
        ∧ Event.trackerSet tx.getId ∈ (CreateReplaceMinerinfotx env σ s ov).events) := by
  rcases createReplace_cases env σ s ov with
    ⟨tx, hcc, hrun⟩ |
    ⟨hcc, ⟨e, hext, hrun⟩ | ⟨doc, hext, hh, hrun⟩ | ⟨doc, hext, hh,
      ⟨m, hbs, hrun⟩ | ⟨tx, funds, hbs,
        ⟨m, hrej, hrun⟩ | ⟨hrej, hha, hrun⟩ | ⟨hrej, hha, hrun⟩⟩⟩⟩
  · constructor
    · rintro ⟨tx', hmem, -⟩ -
      rw [hrun] at hmem
      simp at hmem
    · intro ht h
      rw [hrun] at h
      cases h
  · constructor
    · rintro ⟨tx', hmem, -⟩ -
      rw [hrun] at hmem
      exact absurd hmem (cacheEvents_no_submitted σ ov s tx' false true)
    · intro ht h
      rw [hrun] at h
      injection h with h2
      rcases extract_error_shape hext with ⟨i, a, he⟩ | ⟨m, he⟩ <;>
        rw [he] at h2 <;> cases h2
  · constructor
    · rintro ⟨tx', hmem, -⟩ -
      rw [hrun] at hmem
      exact absurd hmem (cacheEvents_no_submitted σ ov s tx' false true)
    · intro ht h
      rw [hrun] at h
      cases h
  · constructor
    · rintro ⟨tx', hmem, -⟩ -
      rw [hrun] at hmem
      rcases List.mem_append.mp hmem with hm | hm
      · exact absurd hm (cacheEvents_no_submitted σ ov s tx' false true)
      · simp at hm
    · intro ht h
      rw [hrun] at h
      cases h
  · constructor
    · rintro ⟨tx', hmem, hrej'⟩ -
      rw [hrun] at hmem
      rcases List.mem_append.mp hmem with hm | hm
      · exact absurd hm (cacheEvents_no_submitted σ ov s tx' false true)
      · have : tx' = tx := by simpa using hm
        rw [this, hrej] at hrej'
        cases hrej'
    · intro ht h
      rw [hrun] at h
      cases h
  · constructor
    · rintro - -
      rw [hrun]
    · rintro ht -
      refine ⟨tx, ?_, ?_, ?_⟩
      · rw [hrun]
      · rw [hrun]
        exact List.mem_cons_self _ _
      · rw [hrun]
        simp
  · constructor
    · rintro - hht
      exact absurd hha hht
    · intro ht h
      rw [hrun] at h
      cases h

/-- C2: every submission to the pending pool carries the arguments
`allowHighFees = false, dontCheckFee = true` (fee checks disabled),
is immediately preceded by recording the transaction's id into the
tracker, and concerns a transaction whose outputs return exactly the
funding coin's amount (a zero-fee transaction, accepted when the pool
does not reject it); whenever the pool's submit result for the submitted
transaction reports a rejection (a non-null error), the tracker's
current transaction id is cleared again and the operation fails with the
broadcast error carrying that rejection; and conversely every
broadcast-error failure stems from such a rejection after the tracker
had been set. -/
theorem broadcast_tracker_protocol (env : Env) (σ : NodeState) (s : Script)
    (ov : Bool) :
    (∀ tx ahf dcf, Event.submitted tx ahf dcf ∈ (CreateReplaceMinerinfotx env σ s ov).events →
      ahf = false ∧ dcf = true
      ∧ (∃ l₁ l₂, (CreateReplaceMinerinfotx env σ s ov).events
          = l₁ ++ Event.trackerSet tx.getId :: Event.submitted tx ahf dcf :: l₂)
      ∧ (∃ funds coin, getCoin σ.utxos funds = some coin
          ∧ tx.vin.map TxIn.prevout = [funds]
          ∧ tx.vout.map TxOut.value = [0, coin.value])
      ∧ (env.rejects tx = none → tx ∈ (CreateReplaceMinerinfotx env σ s ov).state.pool))
    ∧ (∀ tx ahf dcf m, Event.submitted tx ahf dcf ∈ (CreateReplaceMinerinfotx env σ s ov).events →
      env.rejects tx = some m →
      (CreateReplaceMinerinfotx env σ s ov).result = .error (.broadcastError m)
      ∧ (CreateReplaceMinerinfotx env σ s ov).state.trackerCurrent = none
      ∧ Event.trackerCleared ∈ (CreateReplaceMinerinfotx env σ s ov).events)
    ∧ (∀ m, (CreateReplaceMinerinfotx env σ s ov).result = .error (.broadcastError m) →
      (CreateReplaceMinerinfotx env σ s ov).state.trackerCurrent = none
      ∧ ∃ tx, env.rejects tx = some m
        ∧ Event.trackerSet tx.getId ∈ (CreateReplaceMinerinfotx env σ s ov).events
        ∧ Event.trackerCleared ∈ (CreateReplaceMinerinfotx env σ s ov).events) := by
  rcases createReplace_cases env σ s ov with
    ⟨tx, hcc, hrun⟩ |
    ⟨hcc, ⟨e, hext, hrun⟩ | ⟨doc, hext, hh, hrun⟩ | ⟨doc, hext, hh,
      ⟨m, hbs, hrun⟩ | ⟨tx, funds, hbs,
        ⟨m, hrej, hrun⟩ | ⟨hrej, hha, hrun⟩ | ⟨hrej, hha, hrun⟩⟩⟩⟩
  · refine ⟨?_, ?_, ?_⟩
    · intro tx' ahf dcf hmem
      rw [hrun] at hmem
      simp at hmem
    · intro tx' ahf dcf m0 hmem hrej'
      rw [hrun] at hmem
      simp at hmem
    · intro m h
      rw [hrun] at h
      cases h
  · refine ⟨?_, ?_, ?_⟩
    · intro tx' ahf dcf hmem
      rw [hrun] at hmem
      exact absurd hmem (cacheEvents_no_submitted σ ov s tx' ahf dcf)
    · intro tx' ahf dcf m0 hmem hrej'
      rw [hrun] at hmem
      exact absurd hmem (cacheEvents_no_submitted σ ov s tx' ahf dcf)
    · intro m h
      rw [hrun] at h
      injection h with h2
      rcases extract_error_shape hext with ⟨i, a, he⟩ | ⟨m2, he⟩ <;>
        rw [he] at h2 <;> cases h2
  · refine ⟨?_, ?_, ?_⟩
    · intro tx' ahf dcf hmem
      rw [hrun] at hmem
      exact absurd hmem (cacheEvents_no_submitted σ ov s tx' ahf dcf)
    · intro tx' ahf dcf m0 hmem hrej'
      rw [hrun] at hmem
      exact absurd hmem (cacheEvents_no_submitted σ ov s tx' ahf dcf)
    · intro m h
      rw [hrun] at h
      cases h
  · refine ⟨?_, ?_, ?_⟩
    · intro tx' ahf dcf hmem
      rw [hrun] at hmem
      rcases List.mem_append.mp hmem with hm | hm
      · exact absurd hm (cacheEvents_no_submitted σ ov s tx' ahf dcf)
      · simp at hm
    · intro tx' ahf dcf m0 hmem hrej'
      rw [hrun] at hmem
      rcases List.mem_append.mp hmem with hm | hm
      · exact absurd hm (cacheEvents_no_submitted σ ov s tx' ahf dcf)
      · simp at hm
    · intro m2 h
      rw [hrun] at h
      cases h
  · refine ⟨?_, ?_, ?_⟩
    · intro tx' ahf dcf hmem
      rw [hrun] at hmem
      rcases List.mem_append.mp hmem with hm | hm
      · exact absurd hm (cacheEvents_no_submitted σ ov s tx' ahf dcf)
      · have hm2 : tx' = tx ∧ ahf = false ∧ dcf = true := by
          simpa using hm
        obtain ⟨htx', hahf, hdcf⟩ := hm2
        subst htx'; subst hahf; subst hdcf
        obtain ⟨fi, coin, -, hco, htx⟩ := buildSigned_ok_shape hbs
        refine ⟨rfl, rfl, ?_, ?_, ?_⟩
        · refine ⟨cacheEvents σ ov s ++ [Event.fundingAttempt], [Event.trackerCleared], ?_⟩
          rw [hrun]
          simp
        · exact ⟨funds, coin, hco, by rw [htx]; rfl, by rw [htx]; rfl⟩
        · intro hrn
          rw [hrn] at hrej
          cases hrej
    · intro tx' ahf dcf m0 hmem hrej'
      rw [hrun] at hmem
      rcases List.mem_append.mp hmem with hm | hm
      · exact absurd hm (cacheEvents_no_submitted σ ov s tx' ahf dcf)
      · have hm2 : tx' = tx ∧ ahf = false ∧ dcf = true := by
          simpa using hm
        obtain ⟨htx', -, -⟩ := hm2
        subst htx'
        rw [hrej] at hrej'
        injection hrej' with hm3
        subst hm3
        refine ⟨?_, ?_, ?_⟩
        · rw [hrun]
        · rw [hrun]
        · rw [hrun]
          simp
    · intro m2 h
      rw [hrun] at h
      injection h with h2
      injection h2 with h3
      subst h3
      refine ⟨by rw [hrun], tx, hrej, ?_, ?_⟩
      · rw [hrun]
        simp
      · rw [hrun]
        simp
  · refine ⟨?_, ?_, ?_⟩
    · intro tx' ahf dcf hmem
      rw [hrun] at hmem
      rcases List.mem_append.mp hmem with hm | hm
      · exact absurd hm (cacheEvents_no_submitted σ ov s tx' ahf dcf)
      · have hm2 : tx' = tx ∧ ahf = false ∧ dcf = true := by
          simpa using hm
        obtain ⟨htx', hahf, hdcf⟩ := hm2
        subst htx'; subst hahf; subst hdcf
        obtain ⟨fi, coin, -, hco, htx⟩ := buildSigned_ok_shape hbs
        refine ⟨rfl, rfl, ?_, ?_, ?_⟩
        · refine ⟨cacheEvents σ ov s ++ [Event.fundingAttempt], [], ?_⟩
          rw [hrun]
          simp
        · exact ⟨funds, coin, hco, by rw [htx]; rfl, by rw [htx]; rfl⟩
        · rintro -
          rw [hrun]
          exact List.mem_cons_self _ _
    · intro tx' ahf dcf m0 hmem hrej'
      rw [hrun] at hmem
      rcases List.mem_append.mp hmem with hm | hm
      · exact absurd hm (cacheEvents_no_submitted σ ov s tx' ahf dcf)
      · have hm2 : tx' = tx ∧ ahf = false ∧ dcf = true := by
          simpa using hm
        obtain ⟨htx', -, -⟩ := hm2
        subst htx'
        rw [hrej] at hrej'
        cases hrej'
    · intro m2 h
      rw [hrun] at h
      cases h
  · refine ⟨?_, ?_, ?_⟩
    · intro tx' ahf dcf hmem
      rw [hrun] at hmem
      rcases List.mem_append.mp hmem with hm | hm
      · exact absurd hm (cacheEvents_no_submitted σ ov s tx' ahf dcf)
      · have hm2 : tx' = tx ∧ ahf = false ∧ dcf = true := by
          simpa using hm
        obtain ⟨htx', hahf, hdcf⟩ := hm2
        subst htx'; subst hahf; subst hdcf
        obtain ⟨fi, coin, -, hco, htx⟩ := buildSigned_ok_shape hbs
        refine ⟨rfl, rfl, ?_, ?_, ?_⟩
        · refine ⟨cacheEvents σ ov s ++ [Event.fundingAttempt], [], ?_⟩
          rw [hrun]
          simp
        · exact ⟨funds, coin, hco, by rw [htx]; rfl, by rw [htx]; rfl⟩
        · rintro -
          rw [hrun]
          exact List.mem_cons_self _ _
    · intro tx' ahf dcf m0 hmem hrej'
      rw [hrun] at hmem
      rcases List.mem_append.mp hmem with hm | hm
      · exact absurd hm (cacheEvents_no_submitted σ ov s tx' ahf dcf)
      · have hm2 : tx' = tx ∧ ahf = false ∧ dcf = true := by
          simpa using hm
        obtain ⟨htx', -, -⟩ := hm2
        subst htx'
        rw [hrej] at hrej'
        cases hrej'
    · intro m2 h
      rw [hrun] at h
      cases h

theorem poolGet_cons_self (t : Tx) (pool : List Tx) :
    poolGet (t :: pool) t.getId = some t := by
  unfold poolGet
  exact List.find?_cons_of_pos _ (by simp)

theorem run_tracked_head (env : Env) (σ : NodeState) (s : Script) (tx : Tx)
    (htr : σ.trackerCurrent = some tx.getId)
    (hpl : poolGet σ.pool tx.getId = some tx) :
    CreateReplaceMinerinfotx env σ s false = ⟨.ok tx.getId, σ, []⟩ := by
  apply run_cache_hit
  have h1 := cache_hit_of s hpl
  show (GetCachedMinerInfoTx σ.pool σ.trackerCurrent false s).cached = some tx
  rw [htr, h1]

/-- C3: `createOrReplace` (override) with a tracked transaction
retrievable from the pool: an envelope script byte-identical to that
transaction's first output script returns the existing id unchanged with
no removal, no resubmission and no state change; a differing script first
removes the prior transaction from the pool and clears the tracker, the
old id is no longer retrievable from the resulting pool, and any id the
run returns is different from the old one. -/
theorem createOrReplace_override_spec (env : Env) (σ : NodeState) (s : Script)
    (current : TxId) (tx : Tx)
    (hcur : σ.trackerCurrent = some current)
    (hget : poolGet σ.pool current = some tx) :
    (tx.firstOutputScript = s →
      replaceminerinfotx env σ s = ⟨.ok current, σ, []⟩)
    ∧ (tx.firstOutputScript ≠ s →
      (∃ rest, (replaceminerinfotx env σ s).events
          = Event.removedFromPool current :: Event.trackerCleared :: rest)
      ∧ poolGet (replaceminerinfotx env σ s).state.pool current = none
      ∧ ∀ newId, (replaceminerinfotx env σ s).result = .ok newId → newId ≠ current) := by
  obtain ⟨htid, -⟩ := poolGet_some hget
  constructor
  · intro hfos
    have hcc : (cacheOf σ true s).cached = some tx := by
      simp [cacheOf, GetCachedMinerInfoTx, hcur, hget, hfos]
    have hrun := run_cache_hit env hcc
    show CreateReplaceMinerinfotx env σ s true = _
    rw [hrun, htid]
  · intro hfos
    simp only [replaceminerinfotx]
    have hce : cacheOf σ true s = ⟨none, poolRemove σ.pool current, none,
        [Event.removedFromPool current, Event.trackerCleared]⟩ := by
      simp [cacheOf, GetCachedMinerInfoTx, hcur, hget, hfos, htid]
    have hpool : (cacheOf σ true s).pool = poolRemove σ.pool current := by rw [hce]
    have hevs : (cacheOf σ true s).events
        = [Event.removedFromPool current, Event.trackerCleared] := by rw [hce]
    rcases createReplace_cases env σ s true with
      ⟨tx0, hcc, hrun⟩ |
      ⟨hcc, ⟨e, hext, hrun⟩ | ⟨doc, hext, hh, hrun⟩ | ⟨doc, hext, hh,
        ⟨m, hbs, hrun⟩ | ⟨tx0, funds, hbs,
          ⟨m, hrej, hrun⟩ | ⟨hrej, hha, hrun⟩ | ⟨hrej, hha, hrun⟩⟩⟩⟩
    · rw [hce] at hcc
      cases hcc
    · refine ⟨⟨[], ?_⟩, ?_, ?_⟩
      · show (CreateReplaceMinerinfotx env σ s true).events = _
        rw [hrun]
        simp only [cacheEvents]
        rw [hevs]
      · show poolGet (CreateReplaceMinerinfotx env σ s true).state.pool current = none
        rw [hrun]
        simp only [postCacheState]
        rw [hpool]
        exact poolGet_poolRemove _ _
      · intro newId h
        rw [hrun] at h
        cases h
    · refine ⟨⟨[], ?_⟩, ?_, ?_⟩
      · show (CreateReplaceMinerinfotx env σ s true).events = _
        rw [hrun]
        simp only [cacheEvents]
        rw [hevs]
      · show poolGet (CreateReplaceMinerinfotx env σ s true).state.pool current = none
        rw [hrun]
        simp only [postCacheState]
        rw [hpool]
        exact poolGet_poolRemove _ _
      · intro newId h
        rw [hrun] at h
        cases h
    · refine ⟨⟨[Event.fundingAttempt], ?_⟩, ?_, ?_⟩
      · show (CreateReplaceMinerinfotx env σ s true).events = _
        rw [hrun]
        simp only [cacheEvents]
        rw [hevs]
        rfl
      · show poolGet (CreateReplaceMinerinfotx env σ s true).state.pool current = none
        rw [hrun]
        simp only [postCacheState]
        rw [hpool]
        exact poolGet_poolRemove _ _
      · intro newId h
        rw [hrun] at h
        cases h
    · refine ⟨⟨[Event.fundingAttempt, Event.trackerSet tx0.getId,
          Event.submitted tx0 false true, Event.trackerCleared], ?_⟩, ?_, ?_⟩
      · show (CreateReplaceMinerinfotx env σ s true).events = _
        rw [hrun]
        simp only [cacheEvents]
        rw [hevs]
        rfl
      · show poolGet (CreateReplaceMinerinfotx env σ s true).state.pool current = none
        rw [hrun]
        simp only [postCacheState]
        rw [hpool]
        exact poolGet_poolRemove _ _
      · intro newId h
        rw [hrun] at h
        cases h
    · have hne : tx0.getId ≠ current := by
        intro he
        have h2 : tx0.getId = tx.getId := by rw [he, htid]
        have h3 := getId_firstOutputScript h2
        rw [buildSigned_firstOutputScript hbs] at h3
        exact hfos h3.symm
      refine ⟨⟨[Event.fundingAttempt, Event.trackerSet tx0.getId,
          Event.submitted tx0 false true], ?_⟩, ?_, ?_⟩
      · show (CreateReplaceMinerinfotx env σ s true).events = _
        rw [hrun]
        simp only [cacheEvents]
        rw [hevs]
        rfl
      · show poolGet (CreateReplaceMinerinfotx env σ s true).state.pool current = none
        rw [hrun]
        show poolGet (tx0 :: (cacheOf σ true s).pool) current = none
        rw [poolGet_cons_ne _ hne, hpool]
        exact poolGet_poolRemove _ _
      · intro newId h
        rw [hrun] at h
        cases h
    · have hne : tx0.getId ≠ current := by
        intro he
        have h2 : tx0.getId = tx.getId := by rw [he, htid]
        have h3 := getId_firstOutputScript h2
        rw [buildSigned_firstOutputScript hbs] at h3
        exact hfos h3.symm
      refine ⟨⟨[Event.fundingAttempt, Event.trackerSet tx0.getId,
          Event.submitted tx0 false true], ?_⟩, ?_, ?_⟩
      · show (CreateReplaceMinerinfotx env σ s true).events = _
        rw [hrun]
        simp only [cacheEvents]
        rw [hevs]
        rfl
      · show poolGet (CreateReplaceMinerinfotx env σ s true).state.pool current = none
        rw [hrun]
        show poolGet (tx0 :: (cacheOf σ true s).pool) current = none
        rw [poolGet_cons_ne _ hne, hpool]
        exact poolGet_poolRemove _ _
      · intro newId h
        rw [hrun] at h
        injection h with h2
        rw [← h2]
        exact hne

/-- C4: `createOrGet` is idempotent — a second call on the state produced
by a successful first call (no intervening block) returns the same
transaction id, leaves the state unchanged, and performs no events at
all (in particular no new pending-pool submission). -/
theorem createOrGet_idempotent (env env' : Env) (σ : NodeState) (s : Script)
    (X : TxId) (h : (createminerinfotx env σ s).result = .ok X) :
    createminerinfotx env' (createminerinfotx env σ s).state s
      = ⟨.ok X, (createminerinfotx env σ s).state, []⟩ := by
  rcases createReplace_cases env σ s false with
    ⟨tx, hcc, hrun⟩ |
    ⟨hcc, ⟨e, hext, hrun⟩ | ⟨doc, hext, hh, hrun⟩ | ⟨doc, hext, hh,
      ⟨m, hbs, hrun⟩ | ⟨tx, funds, hbs,
        ⟨m, hrej, hrun⟩ | ⟨hrej, hha, hrun⟩ | ⟨hrej, hha, hrun⟩⟩⟩⟩
  · obtain ⟨-, cur, hcur, hpg⟩ := cache_cached_some hcc
    obtain ⟨hgid, -⟩ := poolGet_some hpg
    show CreateReplaceMinerinfotx env' (createminerinfotx env σ s).state s false = _
    rw [show createminerinfotx env σ s = CreateReplaceMinerinfotx env σ s false from rfl,
      hrun] at h ⊢
    injection h with h2
    rw [← h2]
    exact run_tracked_head env' σ s tx (by rw [hcur, hgid]) (by rw [hgid]; exact hpg)
  · rw [show createminerinfotx env σ s = CreateReplaceMinerinfotx env σ s false from rfl,
      hrun] at h
    cases h
  · rw [show createminerinfotx env σ s = CreateReplaceMinerinfotx env σ s false from rfl,
      hrun] at h
    cases h
  · rw [show createminerinfotx env σ s = CreateReplaceMinerinfotx env σ s false from rfl,
      hrun] at h
    cases h
  · rw [show createminerinfotx env σ s = CreateReplaceMinerinfotx env σ s false from rfl,
      hrun] at h
    cases h
  · rw [show createminerinfotx env σ s = CreateReplaceMinerinfotx env σ s false from rfl,
      hrun] at h
    cases h
  · show CreateReplaceMinerinfotx env' (createminerinfotx env σ s).state s false = _
    rw [show createminerinfotx env σ s = CreateReplaceMinerinfotx env σ s false from rfl,
      hrun] at h ⊢
    injection h with h2
    rw [← h2]
    exact run_tracked_head env' _ s tx rfl (poolGet_cons_self tx _)

/-- C6 (amended): whenever the cache consult yields nothing and the
parsed document's height differs from tip height plus one, the run fails
with the height-mismatch error; on every height-mismatch failure no
funding, signing, broadcast or tracker-set was attempted — the only
events possibly on record are the override-removal's pool removal and
tracker clear, which happen before the height check; for non-override
calls the state is entirely unchanged. -/
theorem heightMismatch_spec (env : Env) (σ : NodeState) (s : Script) (ov : Bool) :
    ((cacheOf σ ov s).cached = none →
      ∀ doc, ExtractMinerInfoDoc env.read s = .ok doc →
      getInt (findValue doc "height") ≠ σ.chainHeight + 1 →
      (CreateReplaceMinerinfotx env σ s ov).result = .error .heightMismatch)
    ∧ ((CreateReplaceMinerinfotx env σ s ov).result = .error .heightMismatch →
      (∀ e ∈ (CreateReplaceMinerinfotx env σ s ov).events,
        e = .trackerCleared ∨ ∃ t, e = .removedFromPool t)
      ∧ (ov = false →
        CreateReplaceMinerinfotx env σ s ov = ⟨.error .heightMismatch, σ, []⟩)) := by
  constructor
  · intro hcc doc hext hne
    rw [run_cache_none env hcc, hext]
    dsimp only
    rw [if_pos (by simpa using hne)]
  · intro h
    rcases createReplace_cases env σ s ov with
      ⟨tx, hcc, hrun⟩ |
      ⟨hcc, ⟨e, hext, hrun⟩ | ⟨doc, hext, hh, hrun⟩ | ⟨doc, hext, hh,
        ⟨m, hbs, hrun⟩ | ⟨tx, funds, hbs,
          ⟨m, hrej, hrun⟩ | ⟨hrej, hha, hrun⟩ | ⟨hrej, hha, hrun⟩⟩⟩⟩
    · rw [hrun] at h
      cases h
    · rw [hrun] at h
      injection h with h2
      rcases extract_error_shape hext with ⟨i, a, he⟩ | ⟨m, he⟩ <;>
        rw [he] at h2 <;> cases h2
    · constructor
      · intro e hmem
        rw [hrun] at hmem
        simp only [cacheEvents, cacheOf] at hmem
        rcases cache_events_shape σ.pool σ.trackerCurrent ov s with hsh | ⟨t, hsh⟩
        · rw [hsh] at hmem
          cases hmem
        · rw [hsh] at hmem
          simp only [List.mem_cons, List.not_mem_nil, or_false] at hmem
          rcases hmem with hmem | hmem
          · exact .inr ⟨t, hmem⟩
          · exact .inl hmem
      · intro hov
        subst hov
        obtain ⟨co, hcaches⟩ := cache_no_removal σ.pool σ.trackerCurrent s
        rw [hrun]
        simp only [postCacheState, cacheEvents, cacheOf, hcaches]
    · rw [hrun] at h
      injection h with h2
      cases h2
    · rw [hrun] at h
      injection h with h2
      cases h2
    · rw [hrun] at h
      injection h with h2
      cases h2
    · rw [hrun] at h
      cases h

def exampleSeedOutpoint : OutPoint := ⟨txidOfString "aa", 0⟩

def exampleKeyFile : UniValue :=
  .vobj [("fundingKey", .vobj [("privateBIP32", .vstr "xprv")])]

def exampleSeedFile : UniValue :=
  .vobj [("fundingDestination", .vobj [("addressBase58", .vstr "addr")]),
         ("firstFundingOutpoint", .vobj [("txid", .vstr "aa"), ("n", .vnum 0)])]

/-- Tip height 100, empty pool, no tracked transaction, the funding seed
holding 1000 units spendable, both funding records on disk. -/
def exampleState : NodeState :=
  ⟨100, [], none, [(exampleSeedOutpoint, ⟨1000, []⟩)],
   some exampleKeyFile, some exampleSeedFile⟩

/-- Collaborators accepting every submission, no previous miner-info
transaction, tip still at 100 at the re-check. -/
def exampleEnv : Env := ⟨exampleRead, none, fun _ => none, 100⟩

/-- Same collaborators, but a block arrives during construction: the
re-read tip height is 101. -/
def exampleEnvTipMoved : Env := ⟨exampleRead, none, fun _ => none, 101⟩

/-- Same collaborators, but the pool rejects every submission. -/
def exampleEnvReject : Env := ⟨exampleRead, none, fun _ => some "rejected", 100⟩

/-- The transaction `CreateReplaceMinerinfotx` builds from
`exampleState` for `exampleScript`. -/
def exampleNewTx : Tx :=
  ⟨[⟨exampleSeedOutpoint, seqFinal, signatureScript "xprv"⟩],
   [⟨0, exampleScript⟩, ⟨1000, scriptForDestination "addr"⟩]⟩

def exampleOldScript : Script := protocolTemplate ++ [⟨2, [0x00]⟩]

def exampleOldTx : Tx := ⟨[], [⟨0, exampleOldScript⟩]⟩

/-- Like `exampleState` but with a tracked prior miner-info transaction
in the pool. -/
def exampleStateTracked : NodeState :=
  ⟨100, [exampleOldTx], some exampleOldTx.getId,
   [(exampleSeedOutpoint, ⟨1000, []⟩)], some exampleKeyFile, some exampleSeedFile⟩

/-- Like `exampleStateTracked` but at tip height 200, so the example
document's height 101 fails the height check. -/
def exampleStateTrackedHigh : NodeState :=
  ⟨200, [exampleOldTx], some exampleOldTx.getId,
   [(exampleSeedOutpoint, ⟨1000, []⟩)], some exampleKeyFile, some exampleSeedFile⟩

/-- Like `exampleState` but at tip height 200. -/
def exampleStateHigh : NodeState :=
  ⟨200, [], none, [(exampleSeedOutpoint, ⟨1000, []⟩)],
   some exampleKeyFile, some exampleSeedFile⟩

/-- C1 counterexample: a concrete run in which the transaction is built,
signed and submitted (accepted) while the tip advances from 100 to 101 —
the operation fails with the consistency error, but the tracker's current
transaction id is NOT left unset: it still points at the submitted
transaction, contradicting the claim. -/
theorem consistencyError_clears_tracker_counterexample :
    Event.submitted exampleNewTx false true
      ∈ (createminerinfotx exampleEnvTipMoved exampleState exampleScript).events
    ∧ exampleEnvTipMoved.rejects exampleNewTx = none
    ∧ (createminerinfotx exampleEnvTipMoved exampleState exampleScript).result
        = .error (.consistencyError 102)
    ∧ (createminerinfotx exampleEnvTipMoved exampleState exampleScript).state.trackerCurrent
        ≠ none := by
  refine ⟨by decide, rfl, rfl, ?_⟩
  intro h
  have h2 : some exampleNewTx.getId = (none : Option TxId) := h
  cases h2

/-- C1 witness: `consistencyError_keeps_tracker` at the concrete
tip-advanced run. -/
theorem consistencyError_keeps_tracker_witness :
    (createminerinfotx exampleEnvTipMoved exampleState exampleScript).result
      = .error (.consistencyError 102)
    ∧ ∃ tx, (createminerinfotx exampleEnvTipMoved exampleState exampleScript).state.trackerCurrent
          = some tx.getId
      ∧ tx ∈ (createminerinfotx exampleEnvTipMoved exampleState exampleScript).state.pool
      ∧ Event.trackerSet tx.getId
          ∈ (createminerinfotx exampleEnvTipMoved exampleState exampleScript).events := by
  have h1 := (consistencyError_keeps_tracker exampleEnvTipMoved exampleState
      exampleScript false).1 ⟨exampleNewTx, by decide, rfl⟩ (by decide)
  exact ⟨h1, (consistencyError_keeps_tracker exampleEnvTipMoved exampleState
      exampleScript false).2 102 h1⟩

/-- C2 witness: `broadcast_tracker_protocol` at the concrete rejecting
run — the tracker is set before the fee-check-disabled submission, and
since the pool reports a rejection for the submitted transaction, the
tracker is cleared again and the run fails with the broadcast error. -/
theorem broadcast_tracker_protocol_witness :
    (∃ l₁ l₂, (createminerinfotx exampleEnvReject exampleState exampleScript).events
        = l₁ ++ Event.trackerSet exampleNewTx.getId
            :: Event.submitted exampleNewTx false true :: l₂)
    ∧ exampleEnvReject.rejects exampleNewTx = some "rejected"
    ∧ (createminerinfotx exampleEnvReject exampleState exampleScript).result
        = .error (.broadcastError "rejected")
    ∧ (createminerinfotx exampleEnvReject exampleState exampleScript).state.trackerCurrent
        = none
    ∧ Event.trackerCleared
        ∈ (createminerinfotx exampleEnvReject exampleState exampleScript).events := by
  have h1 := (broadcast_tracker_protocol exampleEnvReject exampleState
      exampleScript false).1 exampleNewTx false true (by decide)
  have h2 := (broadcast_tracker_protocol exampleEnvReject exampleState
      exampleScript false).2.1 exampleNewTx false true "rejected" (by decide) rfl
  exact ⟨h1.2.2.1, rfl, h2.1, h2.2.1, h2.2.2⟩

/-- C3 witness: `createOrReplace_override_spec` at concrete runs — the
identical-script override returns the old id with no events and no state
change; the differing-script override removes the old transaction,
clears the tracker, and produces a different id. -/
theorem createOrReplace_override_spec_witness :
    replaceminerinfotx exampleEnv exampleStateTracked exampleOldScript
      = ⟨.ok exampleOldTx.getId, exampleStateTracked, []⟩
    ∧ (∃ rest, (replaceminerinfotx exampleEnv exampleStateTracked exampleScript).events
        = Event.removedFromPool exampleOldTx.getId :: Event.trackerCleared :: rest)
    ∧ poolGet (replaceminerinfotx exampleEnv exampleStateTracked exampleScript).state.pool
        exampleOldTx.getId = none
    ∧ (replaceminerinfotx exampleEnv exampleStateTracked exampleScript).result
        = .ok exampleNewTx.getId
    ∧ exampleNewTx.getId ≠ exampleOldTx.getId := by
  have hid := createOrReplace_override_spec exampleEnv exampleStateTracked
    exampleOldScript exampleOldTx.getId exampleOldTx rfl rfl
  have hdiff := (createOrReplace_override_spec exampleEnv exampleStateTracked
    exampleScript exampleOldTx.getId exampleOldTx rfl rfl).2 (by decide)
  exact ⟨hid.1 rfl, hdiff.1, hdiff.2.1, rfl, hdiff.2.2 exampleNewTx.getId rfl⟩

/-- C4 witness: `createOrGet_idempotent` at the concrete successful run:
the second call returns the same id, changes nothing, and performs no
events (no pending-pool submission). -/
theorem createOrGet_idempotent_witness :
    (createminerinfotx exampleEnv exampleState exampleScript).result
      = .ok exampleNewTx.getId
    ∧ createminerinfotx exampleEnv
        (createminerinfotx exampleEnv exampleState exampleScript).state exampleScript
      = ⟨.ok exampleNewTx.getId,
         (createminerinfotx exampleEnv exampleState exampleScript).state, []⟩ := by
  have h1 : (createminerinfotx exampleEnv exampleState exampleScript).result
      = .ok exampleNewTx.getId := rfl
  exact ⟨h1, createOrGet_idempotent exampleEnv exampleEnv exampleState exampleScript
    exampleNewTx.getId h1⟩

/-- C6 counterexample: a concrete override call with a bad document
height (101 against tip 200): it fails with the height-mismatch error,
yet a tracker mutation had already been attempted before the failure —
the tracker was cleared and the prior transaction removed, contradicting
the claim that the failure precedes any tracker mutation. -/
theorem heightMismatch_counterexample :
    (replaceminerinfotx exampleEnv exampleStateTrackedHigh exampleScript).result
      = .error .heightMismatch
    ∧ exampleStateTrackedHigh.trackerCurrent = some exampleOldTx.getId
    ∧ (replaceminerinfotx exampleEnv exampleStateTrackedHigh exampleScript).state.trackerCurrent
        = none
    ∧ Event.trackerCleared
        ∈ (replaceminerinfotx exampleEnv exampleStateTrackedHigh exampleScript).events := by
  exact ⟨rfl, rfl, rfl, by decide⟩

/-- C6 witness: `heightMismatch_spec` at a concrete non-override call
with document height 101 against tip 200 — the run fails with the
height-mismatch error, with no events at all and the state unchanged. -/
theorem heightMismatch_spec_witness :
    (createminerinfotx exampleEnv exampleStateHigh exampleScript).result
      = .error .heightMismatch
    ∧ (∀ e ∈ (createminerinfotx exampleEnv exampleStateHigh exampleScript).events,
        e = .trackerCleared ∨ ∃ t, e = .removedFromPool t)
    ∧ createminerinfotx exampleEnv exampleStateHigh exampleScript
        = ⟨.error .heightMismatch, exampleStateHigh, []⟩ := by
  have h1 := (heightMismatch_spec exampleEnv exampleStateHigh exampleScript false).1
    rfl exampleDoc rfl (by decide)
  have h2 := (heightMismatch_spec exampleEnv exampleStateHigh exampleScript false).2 h1
  exact ⟨h1, h2.1, h2.2 rfl⟩

end MinerInfo
